import Mathlib

/-!
Verification of the lighthouse-results-badger GitHub Action (`src/index.ts`).

The pipeline is embedded shallowly: JavaScript strings are modelled as
`List Char` (so that every operation is a structurally recursive, fully
evaluable Lean function), category scores as `ℚ`, and the `undefined`
value arising from a missing category lookup as `Option` (`none` plays the
role of `NaN` after arithmetic, exactly as in the source, where
`undefined * 100` is `NaN`, `Math.ceil NaN` is `NaN`, and `NaN >= c` is
false for every bound).  All observable effects of a run — `core.warning`,
`core.info`, `core.setOutput`, `core.setFailed`, `fs.writeFileSync` of a
badge, and the two SDK upload calls — are collected in order in a trace of
`Event`s.  The outcome of each upload attempt (the only genuinely external
behaviour) is supplied by an oracle indexed by the number of upload
attempts made so far.
-/

/-- The characters of a string literal; JavaScript strings are modelled as
`List Char` throughout. -/
def chars (s : String) : List Char := s.data

/-- JavaScript `String.prototype.split` with a one-character separator:
`''.split(sep)` is `['']`, and separators at the ends produce empty
fields.  Mirrors `core.getInput('result-categories').split(',')`. -/
def splitOnChar (sep : Char) : List Char → List (List Char)
  | [] => [[]]
  | c :: rest =>
    if c = sep then [] :: splitOnChar sep rest
    else
      match splitOnChar sep rest with
      | [] => [[c]]
      | x :: xs => (c :: x) :: xs

/-- JavaScript `String.prototype.trim` (whitespace stripped from both
ends); mirrors `.map(category => category.trim())`. -/
def trimL (l : List Char) : List Char :=
  ((l.dropWhile Char.isWhitespace).reverse.dropWhile Char.isWhitespace).reverse

/-- JavaScript `String.prototype.endsWith`; mirrors
`file.endsWith('.report.json')`. -/
def endsWithL (l suffix : List Char) : Bool := List.isSuffixOf suffix l

/-- JavaScript `String.prototype.replace` with a plain (non-regexp) search
string: only the FIRST occurrence of `pat` is replaced; a string without an
occurrence is returned unchanged.  Mirrors
`file.replace('report.json', label + '.svg')`. -/
def replaceFirstL (pat repl : List Char) : List Char → List Char
  | [] => []
  | c :: rest =>
    if List.isPrefixOf pat (c :: rest) then
      repl ++ List.drop pat.length (c :: rest)
    else
      c :: replaceFirstL pat repl rest

/-- Node `path.join` for a directory spelled without a trailing separator,
as in `path.join(reportsPath, file)`. -/
def pathJoinL (dir name : List Char) : List Char := dir ++ '/' :: name

/-- Node `path.basename`: the part of the path after the last `/`;
mirrors `path.basename(filePath)` in the Azure uploader. -/
def basenameL (l : List Char) : List Char := (splitOnChar '/' l).getLastD l

/-- `\w` of the regular expression `/(^\w+:|^)\/\/[^\/]+/`. -/
def isWordChar (c : Char) : Bool := c.isAlphanum || c = '_'

/-- The `[^/]+` part of the regular expression, applied greedily at the
start of `cs`: `some remainder` when at least one non-`/` character is
consumed, `none` otherwise. -/
def hostSplit (cs : List Char) : Option (List Char) :=
  let h := cs.takeWhile (fun c => c != '/')
  if h.isEmpty then none else some (cs.dropWhile (fun c => c != '/'))

/-- The `\/\/[^\/]+` part of the regular expression, applied at the start
of `cs`. -/
def matchTail (cs : List Char) : Option (List Char) :=
  match cs with
  | '/' :: '/' :: rest => hostSplit rest
  | _ => none

/-- `url.replace(/(^\w+:|^)\/\/[^\/]+/, '')`: the anchored regular
expression deletes a leading `scheme://host` (or protocol-relative
`//host`) part if present, otherwise leaves the string unchanged.  Because
both alternatives are anchored and `:` is not a word character, the
backtracking behaviour collapses to: take the maximal word-character run at
the start; if it is nonempty and followed by `://` and at least one
non-`/` character, drop through the maximal non-`/` run; if it is empty
the string can only match when it starts with `//` followed by a non-`/`
character. -/
def stripSchemeHostL (cs : List Char) : List Char :=
  let w := cs.takeWhile isWordChar
  if w.isEmpty then
    match matchTail cs with
    | some r => r
    | none => cs
  else
    match cs.dropWhile isWordChar with
    | ':' :: rest2 =>
      match matchTail rest2 with
      | some r => r
      | none => cs
    | _ => cs

/-- The value badgen is called with: the external badge renderer is an
opaque pure function, so its output is modelled by its argument triple
`{label, status, color}`. -/
structure Badge where
  label : List Char
  status : List Char
  color : List Char
deriving DecidableEq, Repr

/-- `badgen({ label, status, color })`, at the external-library boundary. -/
def badgen (label status color : List Char) : Badge := ⟨label, status, color⟩

/-- One observable effect of a run, in order of occurrence. -/
inductive Event where
  | warning (msg : List Char)
  | info (msg : List Char)
  | setOutput (key value : List Char)
  | setFailed (msg : List Char)
  | wroteSvg (path : List Char) (svg : Badge)
  | s3Upload (bucket key contentType : List Char)
  | azureUpload (container blobName contentType : List Char)
deriving DecidableEq, Repr

/-- The externally determined result of one SDK upload call: the resolved
`data.Location` for S3 (`blockBlobClient.url` is computed, not external),
or the `error.message` of a rejection. -/
inductive UploadOutcome where
  | success (location : List Char)
  | failure (msg : List Char)

/-- `uploadToS3`: records the attempted PutObject (bucket, key, content
type), then either sets the `s3-url` output and logs, or — inside the
function's own `try/catch` — converts the rejection into `core.setFailed`
with the message `Failed to upload <rawName> to S3: <message>`.  The
function never throws (it returns an ordinary trace in both cases). -/
def uploadToS3 (filePath bucketName accessKeyId secretAccessKey region rawName contentType : List Char)
    (outcome : UploadOutcome) : List Event :=
  Event.s3Upload bucketName rawName contentType ::
  match outcome with
  | UploadOutcome.success loc =>
      [Event.setOutput (chars "s3-url") loc,
       Event.info (chars "Uploaded " ++ rawName ++ chars " to S3: " ++ loc)]
  | UploadOutcome.failure m =>
      [Event.setFailed (chars "Failed to upload " ++ rawName ++ chars " to S3: " ++ m)]

/-- `blockBlobClient.url` for an account/container/blob triple. -/
def azureBlobUrl (accountName containerName blobName : List Char) : List Char :=
  chars "https://" ++ accountName ++ chars ".blob.core.windows.net/" ++ containerName ++ '/' :: blobName

/-- `uploadToAzure`: the blob name is `path.basename(filePath)` — the
function receives no destination key and no content type, the content type
is the literal `image/svg+xml` — then either sets the `azure-blob-url`
output and logs, or converts the rejection into `core.setFailed` with the
message `Failed to upload <blobName> to Azure Blob Storage: <message>`.
The function never throws. -/
def uploadToAzure (filePath containerName accountName accountKey : List Char)
    (outcome : UploadOutcome) : List Event :=
  let blobName := basenameL filePath
  Event.azureUpload containerName blobName (chars "image/svg+xml") ::
  match outcome with
  | UploadOutcome.success _ =>
      [Event.setOutput (chars "azure-blob-url") (azureBlobUrl accountName containerName blobName),
       Event.info (chars "Uploaded " ++ blobName ++ chars " to Azure Blob Storage: " ++
         azureBlobUrl accountName containerName blobName)]
  | UploadOutcome.failure m =>
      [Event.setFailed (chars "Failed to upload " ++ blobName ++ chars " to Azure Blob Storage: " ++ m)]

/-- The raw action inputs (`core.getInput` returns the empty string for an
absent input). -/
structure Config where
  reportsPathInput : List Char
  uploadDestinationInput : List Char
  uploadReportsInput : List Char
  s3BucketName : List Char
  s3AccessKeyId : List Char
  s3SecretAccessKey : List Char
  s3Region : List Char
  s3PrefixInput : List Char
  azureContainerName : List Char
  azureStorageAccountName : List Char
  azureStorageAccountKey : List Char
  resultCategoriesInput : List Char

/-- JavaScript `input || default` on strings: only the empty string is
falsy. -/
def orDefault (raw dflt : List Char) : List Char := if raw = [] then dflt else raw

/-- `core.getInput('reports-path') || process.cwd()`. -/
def reportsPath (cfg : Config) (cwd : List Char) : List Char :=
  orDefault cfg.reportsPathInput cwd

/-- `core.getInput('upload-destination') || 's3'`. -/
def uploadDestination (cfg : Config) : List Char :=
  orDefault cfg.uploadDestinationInput (chars "s3")

/-- `core.getInput('upload-reports') || 'false'`. -/
def uploadReports (cfg : Config) : List Char :=
  orDefault cfg.uploadReportsInput (chars "false")

/-- `core.getInput('result-categories').split(',').map(c => c.trim())`. -/
def resultCategories (cfg : Config) : List (List Char) :=
  (splitOnChar ',' cfg.resultCategoriesInput).map trimL

/-- A parsed report file, keeping exactly the fields the pipeline reads:
`finalUrl` (optional; `none` also stands for any falsy value, which
`report?.finalUrl || '/main'` treats the same way) and `categories`, an
object mapping category labels to `{score}` (`none` models a report whose
`categories` field is absent/falsy and hence fails `if (!report.categories)`). -/
structure Report where
  finalUrl : Option (List Char)
  categories : Option (List (List Char × ℚ))
deriving DecidableEq

/-- `report.categories[label]?.score`: the first binding of `label`, or
`undefined` (`none`) when the label is absent. -/
def lookupScore (cats : List (List Char × ℚ)) (label : List Char) : Option ℚ :=
  List.lookup label cats

/-- `Math.ceil(report.categories[label]?.score * 100)`: a present score
yields `⌈score * 100⌉`; an absent one yields `NaN` (modelled `none`). -/
def percOf (cats : List (List Char × ℚ)) (label : List Char) : Option Int :=
  (lookupScore cats label).map (fun s => ⌈s * 100⌉)

/-- `score.toString()`: `NaN` prints as `"NaN"`. -/
def statusOf (p : Option Int) : List Char :=
  match p with
  | none => chars "NaN"
  | some n => chars (toString n)

/-- The tier of an integer percentage: `let color = 'red'; if (score >= 90)
color = 'green'; else if (score >= 50) color = 'orange'`. -/
def colorOfInt (n : Int) : List Char :=
  if 90 ≤ n then chars "green" else if 50 ≤ n then chars "orange" else chars "red"

/-- The tier including the `NaN` case: every comparison against `NaN` is
false, so the colour stays `red`. -/
def colorOf (p : Option Int) : List Char :=
  match p with
  | none => chars "red"
  | some n => colorOfInt n

/-- Steps 2 of the per-report loop: `const url = report?.finalUrl ||
'/main'; let urlPath = url.replace(/(^\w+:|^)\/\/[^\/]+/, ''); urlPath =
urlPath == '/' ? '/main' : urlPath;`. -/
def urlPathOf (finalUrl : Option (List Char)) : List Char :=
  let url := orDefault (finalUrl.getD []) (chars "/main")
  let p := stripSchemeHostL url
  if p = chars "/" then chars "/main" else p

/-- The upload dispatch inside the per-category loop: an `s3` destination
computes the destination key `<prefix><urlPath>.<label>.svg` and calls
`uploadToS3`; an `azure` destination calls `uploadToAzure` (passing no
key); any other destination performs no upload.  `k` counts upload
attempts made so far (indexing the oracle). -/
def uploadStep (cfg : Config) (oracle : Nat → UploadOutcome)
    (svgFileName urlPath label : List Char) (k : Nat) : List Event × Nat :=
  if uploadDestination cfg = chars "s3" then
    (uploadToS3 svgFileName cfg.s3BucketName cfg.s3AccessKeyId cfg.s3SecretAccessKey
      cfg.s3Region (cfg.s3PrefixInput ++ urlPath ++ '.' :: label ++ chars ".svg")
      (chars "image/svg+xml") (oracle k), k + 1)
  else if uploadDestination cfg = chars "azure" then
    (uploadToAzure svgFileName cfg.azureContainerName cfg.azureStorageAccountName
      cfg.azureStorageAccountKey (oracle k), k + 1)
  else ([], k)

/-- Step 3 of the per-report loop: for each configured category label,
render and write the badge, then upload it according to the destination. -/
def goCats (cfg : Config) (cwd : List Char) (oracle : Nat → UploadOutcome)
    (file urlPath : List Char) (cats : List (List Char × ℚ)) :
    List (List Char) → Nat → List Event × Nat
  | [], k => ([], k)
  | label :: rest, k =>
    let p := percOf cats label
    let svg := badgen label (statusOf p) (colorOf p)
    let svgFileName := pathJoinL (reportsPath cfg cwd)
      (replaceFirstL (chars "report.json") (label ++ chars ".svg") file)
    let step := uploadStep cfg oracle svgFileName urlPath label k
    let next := goCats cfg cwd oracle file urlPath cats rest step.2
    (Event.wroteSvg svgFileName svg :: step.1 ++ next.1, next.2)

/-- Step 4 of the per-report loop: `if (uploadReports === 'true')`, upload
the raw report itself; the S3 call passes content type `application/json`,
the Azure call takes none. -/
def goRaw (cfg : Config) (cwd : List Char) (oracle : Nat → UploadOutcome)
    (file urlPath : List Char) (k : Nat) : List Event × Nat :=
  if uploadReports cfg = chars "true" then
    if uploadDestination cfg = chars "s3" then
      (uploadToS3 (pathJoinL (reportsPath cfg cwd) file) cfg.s3BucketName cfg.s3AccessKeyId
        cfg.s3SecretAccessKey cfg.s3Region (cfg.s3PrefixInput ++ urlPath ++ chars ".report.json")
        (chars "application/json") (oracle k), k + 1)
    else if uploadDestination cfg = chars "azure" then
      (uploadToAzure (pathJoinL (reportsPath cfg cwd) file) cfg.azureContainerName
        cfg.azureStorageAccountName cfg.azureStorageAccountKey (oracle k), k + 1)
    else ([], k)
  else ([], k)

/-- The `for (const file of reportFiles)` loop.  Each entry pairs a file
name with its `JSON.parse` result (`Except.error m` models a parse throw
with message `m`).  The third component records an exception escaping the
loop: a parse error is NOT caught per file, it aborts the loop at once,
producing no event for the offending file and skipping every later file.
A report without `categories` only yields the `Invalid file` warning. -/
def goFiles (cfg : Config) (cwd : List Char) (oracle : Nat → UploadOutcome) :
    List (List Char × Except (List Char) Report) → Nat →
    List Event × Nat × Option (List Char)
  | [], k => ([], k, none)
  | (file, parsed) :: rest, k =>
    match parsed with
    | Except.error m => ([], k, some m)
    | Except.ok report =>
      match report.categories with
      | none =>
        let next := goFiles cfg cwd oracle rest k
        (Event.warning (chars "Invalid file " ++ file) :: next.1, next.2)
      | some cats =>
        let urlPath := urlPathOf report.finalUrl
        let catStep := goCats cfg cwd oracle file urlPath cats (resultCategories cfg) k
        let rawStep := goRaw cfg cwd oracle file urlPath catStep.2
        let next := goFiles cfg cwd oracle rest rawStep.2
        (catStep.1 ++ rawStep.1 ++ next.1, next.2)

/-- The whole `run()`: filter the directory listing to `*.report.json`
files, warn and stop when none remain, otherwise process them; an
exception escaping the loop reaches the single outermost `catch`, which
appends exactly one `core.setFailed('Action failed with error: ...')` and
ends the run. -/
def run (cfg : Config) (cwd : List Char)
    (dir : List (List Char × Except (List Char) Report))
    (oracle : Nat → UploadOutcome) : List Event :=
  if (dir.filter (fun f => endsWithL f.1 (chars ".report.json"))).isEmpty then
    [Event.warning (chars "No Lighthouse reports found.")]
  else
    match goFiles cfg cwd oracle (dir.filter (fun f => endsWithL f.1 (chars ".report.json"))) 0 with
    | (evs, _, none) => evs
    | (evs, _, some m) =>
      evs ++ [Event.setFailed (chars "Action failed with error: " ++ m)]

/-- An oracle that rejects every upload attempt. -/
def orFail : Nat → UploadOutcome := fun _ => UploadOutcome.failure (chars "boom")

/-- An oracle that resolves every upload attempt. -/
def orOk : Nat → UploadOutcome := fun _ => UploadOutcome.success (chars "https://loc")

/-- A configuration selecting the Azure destination, with an S3 prefix
configured so that the (unused) S3-style destination key is visibly
different from any blob name. -/
def cfgAzure : Config :=
  { reportsPathInput := chars "/w", uploadDestinationInput := chars "azure",
    uploadReportsInput := [], s3BucketName := [], s3AccessKeyId := [],
    s3SecretAccessKey := [], s3Region := [], s3PrefixInput := chars "pre",
    azureContainerName := [], azureStorageAccountName := [],
    azureStorageAccountKey := [], resultCategoriesInput := chars "perf" }

/-- One report whose `finalUrl` is `https://a.com/x` and whose
`categories` object is present but empty. -/
def dirAzure : List (List Char × Except (List Char) Report) :=
  [(chars "a.report.json", Except.ok { finalUrl := some (chars "https://a.com/x"), categories := some [] })]

/-- A configuration with the default (`s3`) destination, raw-report upload
enabled, bucket `b` and prefix `p`, and an absent `result-categories`
input. -/
def cfgS3raw : Config :=
  { reportsPathInput := chars "/w", uploadDestinationInput := [],
    uploadReportsInput := chars "true", s3BucketName := chars "b", s3AccessKeyId := [],
    s3SecretAccessKey := [], s3Region := [], s3PrefixInput := chars "p",
    azureContainerName := [], azureStorageAccountName := [],
    azureStorageAccountKey := [], resultCategoriesInput := [] }

/-- One report without `finalUrl` and with an empty `categories` object. -/
def dirS3raw : List (List Char × Except (List Char) Report) :=
  [(chars "a.report.json", Except.ok { finalUrl := none, categories := some [] })]

/-- A configuration with an unrecognised destination (no uploads) and a
single configured category `performance`. -/
def cfgNone : Config :=
  { reportsPathInput := chars "/w", uploadDestinationInput := chars "none",
    uploadReportsInput := [], s3BucketName := [], s3AccessKeyId := [],
    s3SecretAccessKey := [], s3Region := [], s3PrefixInput := [],
    azureContainerName := [], azureStorageAccountName := [],
    azureStorageAccountKey := [], resultCategoriesInput := chars "performance" }

/-- A configuration with an unrecognised destination (no uploads) and an
absent `result-categories` input. -/
def cfgEmptyCats : Config :=
  { reportsPathInput := chars "/w", uploadDestinationInput := chars "none",
    uploadReportsInput := [], s3BucketName := [], s3AccessKeyId := [],
    s3SecretAccessKey := [], s3Region := [], s3PrefixInput := [],
    azureContainerName := [], azureStorageAccountName := [],
    azureStorageAccountKey := [], resultCategoriesInput := [] }

/-- A single report file whose name contains `report.json` twice: once in
the middle and once as the `.report.json` suffix. -/
def dirTwice : List (List Char × Except (List Char) Report) :=
  [(chars "report.jsonx.report.json", Except.ok { finalUrl := none, categories := some [] })]

/-- `true` exactly on the badge-write events of a trace. -/
def isWriteEvent : Event → Bool
  | Event.wroteSvg _ _ => true
  | _ => false

/-- `true` on the events a run produces independently of upload outcomes:
warnings, badge writes and upload attempts (as opposed to the
outcome-reporting `info`/`setOutput`/`setFailed` events). -/
def keepPipeline : Event → Bool
  | Event.warning _ => true
  | Event.wroteSvg _ _ => true
  | Event.s3Upload _ _ _ => true
  | Event.azureUpload _ _ _ => true
  | _ => false

/-- Every Azure upload attempt in the trace carries the content type
`image/svg+xml`. -/
def azureCtOk (evs : List Event) : Prop :=
  ∀ cn b ct, Event.azureUpload cn b ct ∈ evs → ct = chars "image/svg+xml"

/-- C2: Tier classification is a pure function of the integer percentage:
red below 50, orange from 50 to 89, green from 90 on; in particular the
boundary values 49, 50, 89, 90 map to red, orange, orange, green. -/
theorem tier_classification :
    (∀ p : Int, colorOfInt p =
      if p < 50 then chars "red" else if p ≤ 89 then chars "orange" else chars "green") ∧
    colorOfInt 49 = chars "red" ∧ colorOfInt 50 = chars "orange" ∧
    colorOfInt 89 = chars "orange" ∧ colorOfInt 90 = chars "green" := by
  refine ⟨fun p => ?_, by decide, by decide, by decide, by decide⟩
  unfold colorOfInt
  split_ifs <;> first | rfl | (exfalso; omega)

/-- C3: for a category label present in the report with score `s ∈ [0, 1]`,
the computed percentage is `⌈s * 100⌉`, an integer between 0 and 100. -/
theorem percentage_ceil_range (cats : List (List Char × ℚ)) (label : List Char) (s : ℚ)
    (hfind : lookupScore cats label = some s) (h0 : 0 ≤ s) (h1 : s ≤ 1) :
    percOf cats label = some ⌈s * 100⌉ ∧ 0 ≤ ⌈s * 100⌉ ∧ ⌈s * 100⌉ ≤ 100 := by
  refine ⟨by simp [percOf, hfind], Int.ceil_nonneg (by positivity), ?_⟩
  have h2 : s * 100 ≤ 100 := by nlinarith
  have h3 : ⌈s * 100⌉ ≤ ⌈(100 : ℚ)⌉ := Int.ceil_le_ceil h2
  simpa using h3

theorem percentage_ceil_range_witness :
    lookupScore [(chars "performance", (1 : ℚ))] (chars "performance") = some 1 ∧
    (percOf [(chars "performance", (1 : ℚ))] (chars "performance") = some ⌈(1 : ℚ) * 100⌉ ∧
      0 ≤ ⌈(1 : ℚ) * 100⌉ ∧ ⌈(1 : ℚ) * 100⌉ ≤ 100) :=
  ⟨rfl, percentage_ceil_range [(chars "performance", (1 : ℚ))] (chars "performance") 1 rfl
    (by norm_num) (by norm_num)⟩

theorem takeWhile_append_stop (p : Char → Bool) (l1 l2 : List Char) (b : Char)
    (h1 : ∀ a ∈ l1, p a = true) (hb : p b = false) :
    (l1 ++ b :: l2).takeWhile p = l1 ∧ (l1 ++ b :: l2).dropWhile p = b :: l2 := by
  induction l1 with
  | nil => simp [List.takeWhile, List.dropWhile, hb]
  | cons a l1 ih =>
    have ha : p a = true := h1 a (List.mem_cons_self a l1)
    have ih2 := ih (fun x hx => h1 x (List.mem_cons_of_mem a hx))
    simp [List.takeWhile, List.dropWhile, ha, ih2.1, ih2.2]

theorem takeWhile_all_sat (p : Char → Bool) (l : List Char) (h : ∀ a ∈ l, p a = true) :
    l.takeWhile p = l ∧ l.dropWhile p = [] := by
  induction l with
  | nil => simp
  | cons a l ih =>
    have ha : p a = true := h a (List.mem_cons_self a l)
    have ih2 := ih (fun x hx => h x (List.mem_cons_of_mem a hx))
    simp [List.takeWhile, List.dropWhile, ha, ih2.1, ih2.2]

/-- The anchored regular expression deletes exactly the `scheme://host`
part when the string decomposes as a nonempty word-character scheme, `://`,
a nonempty slash-free host, and a remainder that is empty or starts with
`/`. -/
theorem strip_scheme_host (scheme host rest : List Char)
    (hs : scheme ≠ []) (hsw : ∀ c ∈ scheme, isWordChar c = true)
    (hh : host ≠ []) (hhs : ∀ c ∈ host, (c != '/') = true)
    (hr : rest = [] ∨ ∃ t, rest = '/' :: t) :
    stripSchemeHostL (scheme ++ ':' :: '/' :: '/' :: host ++ rest) = rest := by
  have hcolon : isWordChar ':' = false := by decide
  have htk := takeWhile_append_stop isWordChar scheme ('/' :: '/' :: (host ++ rest)) ':' hsw hcolon
  have hhost : hostSplit (host ++ rest) = some rest := by
    rcases hr with hr | ⟨t, ht⟩
    · subst hr
      have := takeWhile_all_sat (fun c => c != '/') host hhs
      unfold hostSplit
      simp only [List.append_nil, this.1, this.2]
      rcases host with _ | ⟨a, l⟩
      · exact absurd rfl hh
      · simp
    · subst ht
      have hslash : (('/' : Char) != '/') = false := by decide
      have := takeWhile_append_stop (fun c => c != '/') host t '/' hhs hslash
      unfold hostSplit
      simp only [this.1, this.2]
      rcases host with _ | ⟨a, l⟩
      · exact absurd rfl hh
      · simp
  have hse : scheme.isEmpty = false := by
    cases scheme
    · exact absurd rfl hs
    · rfl
  unfold stripSchemeHostL
  simp only [List.append_assoc, List.cons_append]
  simp only [htk.1, htk.2, hse, Bool.false_eq_true, if_false, matchTail, hhost]

/-- C4: the URL path is `finalUrl` (or the literal `/main` when absent)
with any leading `scheme://host` stripped, and a bare `/` replaced by
`/main`; in particular `https://a.com/foo` yields `/foo`,
`https://a.com/` yields `/main`, and an absent `finalUrl` yields
`/main`. -/
theorem url_path_derivation :
    urlPathOf (some (chars "https://a.com/foo")) = chars "/foo" ∧
    urlPathOf (some (chars "https://a.com/")) = chars "/main" ∧
    urlPathOf none = chars "/main" ∧
    ∀ scheme host rest, scheme ≠ [] → (∀ c ∈ scheme, isWordChar c = true) →
      host ≠ [] → (∀ c ∈ host, (c != '/') = true) →
      (rest = [] ∨ ∃ t, rest = '/' :: t) →
      urlPathOf (some (scheme ++ ':' :: '/' :: '/' :: host ++ rest)) =
        (if rest = chars "/" then chars "/main" else rest) := by
  refine ⟨by decide, by decide, by decide, ?_⟩
  intro scheme host rest hs hsw hh hhs hr
  have hne : scheme ++ ':' :: '/' :: '/' :: host ++ rest ≠ [] := by
    rcases scheme with _ | ⟨a, l⟩
    · exact absurd rfl hs
    · simp
  unfold urlPathOf
  simp only [Option.getD_some, orDefault, if_neg hne,
    strip_scheme_host scheme host rest hs hsw hh hhs hr]

theorem url_path_derivation_witness :
    chars "https" ≠ [] ∧ chars "a.com" ≠ [] ∧
    urlPathOf (some (chars "https" ++ ':' :: '/' :: '/' :: chars "a.com" ++ chars "/foo")) =
      (if chars "/foo" = chars "/" then chars "/main" else chars "/foo") :=
  ⟨by decide, by decide,
    url_path_derivation.2.2.2 (chars "https") (chars "a.com") (chars "/foo")
      (by decide) (by decide) (by decide) (by decide) (Or.inr ⟨chars "foo", by decide⟩)⟩

/-- C5: the Azure backend names the uploaded blob after the local file's
base name — `uploadToAzure` receives no destination key at all — and in a
concrete azure-destination run the S3-style key `<prefix><urlPath>.<label>.svg`
differs from the blob name actually attempted. -/
theorem azure_blob_name_is_basename :
    (∀ fp c a key o cn b ct,
      Event.azureUpload cn b ct ∈ uploadToAzure fp c a key o → b = basenameL fp) ∧
    (Event.azureUpload [] (chars "a.perf.svg") (chars "image/svg+xml") ∈
        run cfgAzure (chars "/w") dirAzure orFail ∧
      cfgAzure.s3PrefixInput ++ urlPathOf (some (chars "https://a.com/x")) ++
          '.' :: chars "perf" ++ chars ".svg" ≠ chars "a.perf.svg") := by
  refine ⟨?_, by decide, by decide⟩
  intro fp c a key o cn b ct h
  cases o <;> simp [uploadToAzure] at h <;> exact h.2.1

theorem azure_blob_name_is_basename_witness :
    (Event.azureUpload (chars "c") (chars "f.svg") (chars "image/svg+xml") ∈
      uploadToAzure (chars "d/f.svg") (chars "c") (chars "acc") (chars "key")
        (UploadOutcome.failure (chars "e"))) ∧
    chars "f.svg" = basenameL (chars "d/f.svg") :=
  ⟨by decide,
    azure_blob_name_is_basename.1 (chars "d/f.svg") (chars "c") (chars "acc") (chars "key")
      (UploadOutcome.failure (chars "e")) (chars "c") (chars "f.svg") (chars "image/svg+xml")
      (by decide)⟩

theorem azureCtOk_uploadToS3 (fp b a s r rawName ct : List Char) (o : UploadOutcome) :
    azureCtOk (uploadToS3 fp b a s r rawName ct o) := by
  intro cn bl c h
  cases o <;> simp [uploadToS3] at h

theorem azureCtOk_uploadToAzure (fp c a key : List Char) (o : UploadOutcome) :
    azureCtOk (uploadToAzure fp c a key o) := by
  intro cn bl ct h
  cases o <;> simp [uploadToAzure] at h <;> exact h.2.2

theorem azureCtOk_append {l1 l2 : List Event} (h1 : azureCtOk l1) (h2 : azureCtOk l2) :
    azureCtOk (l1 ++ l2) := by
  intro cn b ct h
  rcases List.mem_append.mp h with h | h
  · exact h1 cn b ct h
  · exact h2 cn b ct h

theorem azureCtOk_uploadStep (cfg : Config) (oracle : Nat → UploadOutcome)
    (svgFileName urlPath label : List Char) (k : Nat) :
    azureCtOk (uploadStep cfg oracle svgFileName urlPath label k).1 := by
  intro cn b ct h
  unfold uploadStep at h
  split_ifs at h
  · exact azureCtOk_uploadToS3 svgFileName cfg.s3BucketName cfg.s3AccessKeyId
      cfg.s3SecretAccessKey cfg.s3Region
      (cfg.s3PrefixInput ++ urlPath ++ '.' :: label ++ chars ".svg")
      (chars "image/svg+xml") (oracle k) cn b ct h
  · exact azureCtOk_uploadToAzure svgFileName cfg.azureContainerName
      cfg.azureStorageAccountName cfg.azureStorageAccountKey (oracle k) cn b ct h
  · simp at h

theorem azureCtOk_goCats (cfg : Config) (cwd : List Char) (oracle : Nat → UploadOutcome)
    (file urlPath : List Char) (cats : List (List Char × ℚ)) :
    ∀ labels k, azureCtOk (goCats cfg cwd oracle file urlPath cats labels k).1 := by
  intro labels
  induction labels with
  | nil => intro k cn b ct h; simp [goCats] at h
  | cons label rest ih =>
    intro k cn b ct h
    rw [goCats] at h
    rcases List.mem_cons.mp h with h | h
    · exact absurd h (by simp)
    · rcases List.mem_append.mp h with h | h
      · exact azureCtOk_uploadStep cfg oracle _ urlPath label k cn b ct h
      · exact ih _ cn b ct h

theorem azureCtOk_goRaw (cfg : Config) (cwd : List Char) (oracle : Nat → UploadOutcome)
    (file urlPath : List Char) (k : Nat) :
    azureCtOk (goRaw cfg cwd oracle file urlPath k).1 := by
  intro cn b ct h
  unfold goRaw at h
  split_ifs at h
  · exact azureCtOk_uploadToS3 (pathJoinL (reportsPath cfg cwd) file) cfg.s3BucketName
      cfg.s3AccessKeyId cfg.s3SecretAccessKey cfg.s3Region
      (cfg.s3PrefixInput ++ urlPath ++ chars ".report.json")
      (chars "application/json") (oracle k) cn b ct h
  · exact azureCtOk_uploadToAzure (pathJoinL (reportsPath cfg cwd) file) cfg.azureContainerName
      cfg.azureStorageAccountName cfg.azureStorageAccountKey (oracle k) cn b ct h
  · simp at h
  · simp at h

theorem azureCtOk_goFiles (cfg : Config) (cwd : List Char) (oracle : Nat → UploadOutcome) :
    ∀ files k, azureCtOk (goFiles cfg cwd oracle files k).1 := by
  intro files
  induction files with
  | nil => intro k cn b ct h; simp [goFiles] at h
  | cons f rest ih =>
    rcases f with ⟨file, parsed⟩
    intro k cn b ct h
    rcases parsed with m | report
    · simp [goFiles] at h
    · rcases hcats : report.categories with _ | cats
      · simp only [goFiles, hcats] at h
        rcases List.mem_cons.mp h with h | h
        · exact absurd h (by simp)
        · exact ih _ cn b ct h
      · simp only [goFiles, hcats] at h
        rcases List.mem_append.mp h with h | h
        · rcases List.mem_append.mp h with h | h
          · exact azureCtOk_goCats cfg cwd oracle _ _ _ _ _ cn b ct h
          · exact azureCtOk_goRaw cfg cwd oracle _ _ _ cn b ct h
        · exact ih _ cn b ct h

/-- C10: every Azure upload carries content type `image/svg+xml` — the
uploader takes no content-type argument, so this holds for every caller
and every run, raw-report uploads included — whereas the S3 path uploads
the raw report with content type `application/json`. -/
theorem azure_content_type_fixed :
    (∀ fp c a key o, azureCtOk (uploadToAzure fp c a key o)) ∧
    (∀ cfg cwd dir oracle, azureCtOk (run cfg cwd dir oracle)) ∧
    Event.s3Upload (chars "b") (chars "p/main.report.json") (chars "application/json") ∈
      run cfgS3raw (chars "/w") dirS3raw orFail := by
  refine ⟨azureCtOk_uploadToAzure, ?_, by decide⟩
  intro cfg cwd dir oracle cn b ct h
  unfold run at h
  split_ifs at h
  · simp at h
  · rcases hgo : goFiles cfg cwd oracle (dir.filter fun f => endsWithL f.1 (chars ".report.json")) 0
      with ⟨evs, k, err⟩
    have hevs : azureCtOk evs := by
      have h2 := azureCtOk_goFiles cfg cwd oracle
        (dir.filter fun f => endsWithL f.1 (chars ".report.json")) 0
      rw [hgo] at h2
      exact h2
    rw [hgo] at h
    rcases err with _ | m
    · exact hevs cn b ct h
    · rcases List.mem_append.mp h with h | h
      · exact hevs cn b ct h
      · simp at h

theorem azure_content_type_fixed_witness :
    (Event.azureUpload [] (chars "a.perf.svg") (chars "image/svg+xml") ∈
      run cfgAzure (chars "/w") dirAzure orFail) ∧
    chars "image/svg+xml" = chars "image/svg+xml" :=
  ⟨by decide,
    azure_content_type_fixed.2.1 cfgAzure (chars "/w") dirAzure orFail [] (chars "a.perf.svg")
      (chars "image/svg+xml") (by decide)⟩

theorem keepPipeline_uploadToS3 (fp b a s r rawName ct : List Char) (o : UploadOutcome) :
    (uploadToS3 fp b a s r rawName ct o).filter keepPipeline = [Event.s3Upload b rawName ct] := by
  cases o <;> rfl

theorem keepPipeline_uploadToAzure (fp c a key : List Char) (o : UploadOutcome) :
    (uploadToAzure fp c a key o).filter keepPipeline =
      [Event.azureUpload c (basenameL fp) (chars "image/svg+xml")] := by
  cases o <;> rfl

theorem keepPipeline_uploadStep (cfg : Config) (o1 o2 : Nat → UploadOutcome)
    (svg url lab : List Char) (k : Nat) :
    (uploadStep cfg o1 svg url lab k).1.filter keepPipeline =
      (uploadStep cfg o2 svg url lab k).1.filter keepPipeline ∧
    (uploadStep cfg o1 svg url lab k).2 = (uploadStep cfg o2 svg url lab k).2 := by
  unfold uploadStep
  split_ifs <;>
    exact ⟨by simp [keepPipeline_uploadToS3, keepPipeline_uploadToAzure], rfl⟩

theorem keepPipeline_goRaw (cfg : Config) (cwd : List Char) (o1 o2 : Nat → UploadOutcome)
    (file url : List Char) (k : Nat) :
    (goRaw cfg cwd o1 file url k).1.filter keepPipeline =
      (goRaw cfg cwd o2 file url k).1.filter keepPipeline ∧
    (goRaw cfg cwd o1 file url k).2 = (goRaw cfg cwd o2 file url k).2 := by
  unfold goRaw
  split_ifs <;>
    exact ⟨by simp [keepPipeline_uploadToS3, keepPipeline_uploadToAzure], rfl⟩

theorem keepPipeline_goCats (cfg : Config) (cwd : List Char) (o1 o2 : Nat → UploadOutcome)
    (file url : List Char) (cats : List (List Char × ℚ)) :
    ∀ labels k,
      (goCats cfg cwd o1 file url cats labels k).1.filter keepPipeline =
        (goCats cfg cwd o2 file url cats labels k).1.filter keepPipeline ∧
      (goCats cfg cwd o1 file url cats labels k).2 =
        (goCats cfg cwd o2 file url cats labels k).2 := by
  intro labels
  induction labels with
  | nil => exact fun k => ⟨rfl, rfl⟩
  | cons lab rest ih =>
    intro k
    simp only [goCats]
    have hstep := keepPipeline_uploadStep cfg o1 o2
      (pathJoinL (reportsPath cfg cwd) (replaceFirstL (chars "report.json") (lab ++ chars ".svg") file))
      url lab k
    rw [← hstep.2]
    have hnext := ih (uploadStep cfg o1
      (pathJoinL (reportsPath cfg cwd) (replaceFirstL (chars "report.json") (lab ++ chars ".svg") file))
      url lab k).2
    exact ⟨by simp [List.filter_cons, List.filter_append, keepPipeline, hstep.1, hnext.1], hnext.2⟩

theorem keepPipeline_goFiles (cfg : Config) (cwd : List Char) (o1 o2 : Nat → UploadOutcome) :
    ∀ files k,
      (goFiles cfg cwd o1 files k).1.filter keepPipeline =
        (goFiles cfg cwd o2 files k).1.filter keepPipeline ∧
      (goFiles cfg cwd o1 files k).2.1 = (goFiles cfg cwd o2 files k).2.1 ∧
      (goFiles cfg cwd o1 files k).2.2 = (goFiles cfg cwd o2 files k).2.2 := by
  intro files
  induction files with
  | nil => exact fun k => ⟨rfl, rfl, rfl⟩
  | cons f rest ih =>
    rcases f with ⟨file, parsed⟩
    intro k
    rcases parsed with m | report
    · exact ⟨rfl, rfl, rfl⟩
    · rcases hcats : report.categories with _ | cats
      · simp only [goFiles, hcats]
        have hnext := ih k
        exact ⟨by simp [List.filter_cons, keepPipeline, hnext.1], hnext.2.1, hnext.2.2⟩
      · simp only [goFiles, hcats]
        have hcat := keepPipeline_goCats cfg cwd o1 o2 file (urlPathOf report.finalUrl) cats
          (resultCategories cfg) k
        rw [← hcat.2]
        have hraw := keepPipeline_goRaw cfg cwd o1 o2 file (urlPathOf report.finalUrl)
          (goCats cfg cwd o1 file (urlPathOf report.finalUrl) cats (resultCategories cfg) k).2
        rw [← hraw.2]
        have hnext := ih (goRaw cfg cwd o1 file (urlPathOf report.finalUrl)
          (goCats cfg cwd o1 file (urlPathOf report.finalUrl) cats (resultCategories cfg) k).2).2
        exact ⟨by simp [List.filter_append, hcat.1, hraw.1, hnext.1], hnext.2.1, hnext.2.2⟩

theorem keepPipeline_run (cfg : Config) (cwd : List Char)
    (dir : List (List Char × Except (List Char) Report)) (o1 o2 : Nat → UploadOutcome) :
    (run cfg cwd dir o1).filter keepPipeline = (run cfg cwd dir o2).filter keepPipeline := by
  unfold run
  split_ifs
  · rfl
  · have h := keepPipeline_goFiles cfg cwd o1 o2
      (dir.filter fun f => endsWithL f.1 (chars ".report.json")) 0
    rcases hg1 : goFiles cfg cwd o1 (dir.filter fun f => endsWithL f.1 (chars ".report.json")) 0
      with ⟨e1, k1, err1⟩
    rcases hg2 : goFiles cfg cwd o2 (dir.filter fun f => endsWithL f.1 (chars ".report.json")) 0
      with ⟨e2, k2, err2⟩
    rw [hg1, hg2] at h
    obtain ⟨hf, hk, he⟩ := h
    simp only at he
    subst he
    rcases err1 with _ | m
    · exact hf
    · simp [List.filter_append, hf]

/-- C6: a rejected upload is caught inside the upload call itself: the
trace it returns is exactly the attempt followed by one `setFailed` event
of the form `Failed to upload <name> to <Backend>: <message>` (so nothing
is re-thrown), and the pipeline events of a whole run — warnings, badge
writes, and upload attempts for every remaining category and report — are
identical no matter which upload attempts fail. -/
theorem upload_failure_contained :
    (∀ fp b a s r rawName ct m, uploadToS3 fp b a s r rawName ct (UploadOutcome.failure m) =
      [Event.s3Upload b rawName ct,
       Event.setFailed (chars "Failed to upload " ++ rawName ++ chars " to S3: " ++ m)]) ∧
    (∀ fp c a key m, uploadToAzure fp c a key (UploadOutcome.failure m) =
      [Event.azureUpload c (basenameL fp) (chars "image/svg+xml"),
       Event.setFailed (chars "Failed to upload " ++ basenameL fp ++
         chars " to Azure Blob Storage: " ++ m)]) ∧
    (∀ cfg cwd dir o1 o2,
      (run cfg cwd dir o1).filter keepPipeline = (run cfg cwd dir o2).filter keepPipeline) :=
  ⟨fun _ _ _ _ _ _ _ _ => rfl, fun _ _ _ _ _ => rfl, keepPipeline_run⟩

/-- C7: a report that parses but lacks `categories` contributes exactly
one `Invalid file <name>` warning — no badge write, no upload — and the
remaining files are processed exactly as before; concretely, a run over an
invalid file followed by a valid one emits the warning and then the valid
file's badge. -/
theorem missing_categories_skips_file :
    (∀ cfg cwd oracle file report rest k, report.categories = none →
      goFiles cfg cwd oracle ((file, Except.ok report) :: rest) k =
        (Event.warning (chars "Invalid file " ++ file) :: (goFiles cfg cwd oracle rest k).1,
          (goFiles cfg cwd oracle rest k).2)) ∧
    run cfgNone (chars "/w")
        [(chars "bad.report.json", Except.ok { finalUrl := none, categories := none }),
         (chars "good.report.json", Except.ok { finalUrl := none, categories := some [] })] orFail =
      [Event.warning (chars "Invalid file bad.report.json"),
       Event.wroteSvg (chars "/w/good.performance.svg")
         (badgen (chars "performance") (chars "NaN") (chars "red"))] := by
  refine ⟨?_, by decide⟩
  intro cfg cwd oracle file report rest k h
  simp [goFiles, h]

theorem missing_categories_skips_file_witness :
    ({ finalUrl := none, categories := none } : Report).categories = none ∧
    goFiles cfgNone (chars "/w") orFail
        [(chars "x.report.json", Except.ok { finalUrl := none, categories := none })] 0 =
      (Event.warning (chars "Invalid file " ++ chars "x.report.json") ::
          (goFiles cfgNone (chars "/w") orFail [] 0).1,
        (goFiles cfgNone (chars "/w") orFail [] 0).2) :=
  ⟨rfl, missing_categories_skips_file.1 cfgNone (chars "/w") orFail (chars "x.report.json") _ [] 0 rfl⟩

theorem goFiles_append_ok (cfg : Config) (cwd : List Char) (oracle : Nat → UploadOutcome) :
    ∀ xs ys k, (goFiles cfg cwd oracle xs k).2.2 = none →
      goFiles cfg cwd oracle (xs ++ ys) k =
        ((goFiles cfg cwd oracle xs k).1 ++
          (goFiles cfg cwd oracle ys (goFiles cfg cwd oracle xs k).2.1).1,
         (goFiles cfg cwd oracle ys (goFiles cfg cwd oracle xs k).2.1).2) := by
  intro xs
  induction xs with
  | nil => intro ys k h; simp [goFiles]
  | cons f rest ih =>
    rcases f with ⟨file, parsed⟩
    intro ys k h
    rcases parsed with m | report
    · simp [goFiles] at h
    · rcases hcats : report.categories with _ | cats
      · have h2 : (goFiles cfg cwd oracle rest k).2.2 = none := by
          simp only [goFiles, hcats] at h; exact h
        simp only [goFiles, hcats, List.cons_append, List.append_eq]
        rw [ih ys k h2]
      · have h2 : (goFiles cfg cwd oracle rest
            (goRaw cfg cwd oracle file (urlPathOf report.finalUrl)
              (goCats cfg cwd oracle file (urlPathOf report.finalUrl) cats
                (resultCategories cfg) k).2).2).2.2 = none := by
          simp only [goFiles, hcats] at h; exact h
        simp only [goFiles, hcats, List.cons_append, List.append_eq]
        rw [ih ys _ h2]
        simp [List.append_assoc]

theorem goFiles_append_err (cfg : Config) (cwd : List Char) (oracle : Nat → UploadOutcome) :
    ∀ xs ys k m, (goFiles cfg cwd oracle xs k).2.2 = some m →
      goFiles cfg cwd oracle (xs ++ ys) k = goFiles cfg cwd oracle xs k := by
  intro xs
  induction xs with
  | nil => intro ys k m h; simp [goFiles] at h
  | cons f rest ih =>
    rcases f with ⟨file, parsed⟩
    intro ys k m h
    rcases parsed with m2 | report
    · simp [goFiles]
    · rcases hcats : report.categories with _ | cats
      · have h2 : (goFiles cfg cwd oracle rest k).2.2 = some m := by
          simp only [goFiles, hcats] at h; exact h
        simp only [goFiles, hcats, List.cons_append, List.append_eq]
        rw [ih ys k m h2]
      · have h2 : (goFiles cfg cwd oracle rest
            (goRaw cfg cwd oracle file (urlPathOf report.finalUrl)
              (goCats cfg cwd oracle file (urlPathOf report.finalUrl) cats
                (resultCategories cfg) k).2).2).2.2 = some m := by
          simp only [goFiles, hcats] at h; exact h
        simp only [goFiles, hcats, List.cons_append, List.append_eq]
        rw [ih ys _ m h2]

/-- C8: a JSON parse error is not caught per file — the loop produces no
event for the offending file and stops at once (first conjunct), and the
whole run consists of the events of the files before it followed by the
single outermost-catch `setFailed ('Action failed with error: <message>')`,
with the offending and all later files unprocessed (second conjunct). -/
theorem parse_error_aborts_run :
    (∀ cfg cwd oracle file m rest k,
      goFiles cfg cwd oracle ((file, Except.error m) :: rest) k = ([], k, some m)) ∧
    (∀ cfg cwd dir oracle pre file m post,
      dir = pre ++ (file, Except.error m) :: post →
      (∀ f ∈ dir, endsWithL f.1 (chars ".report.json") = true) →
      (goFiles cfg cwd oracle pre 0).2.2 = none →
      run cfg cwd dir oracle =
        (goFiles cfg cwd oracle pre 0).1 ++
          [Event.setFailed (chars "Action failed with error: " ++ m)]) := by
  refine ⟨fun cfg cwd oracle file m rest k => rfl, ?_⟩
  intro cfg cwd dir oracle pre file m post hdir hall hok
  subst hdir
  have hfilter : (pre ++ (file, Except.error m) :: post).filter
      (fun f => endsWithL f.1 (chars ".report.json")) =
      pre ++ (file, Except.error m) :: post := List.filter_eq_self.mpr hall
  have hne : (pre ++ (file, Except.error m) :: post).isEmpty = false := by
    cases pre <;> rfl
  unfold run
  rw [hfilter, hne]
  have happ := goFiles_append_ok cfg cwd oracle pre ((file, Except.error m) :: post) 0 hok
  rw [happ]
  simp [goFiles]

theorem parse_error_aborts_run_witness :
    (∀ f ∈ [(chars "a.report.json",
        Except.ok ({ finalUrl := none, categories := some [] } : Report)),
      (chars "bad.report.json", Except.error (chars "oops"))],
      endsWithL f.1 (chars ".report.json") = true) ∧
    run cfgNone (chars "/w")
        ([(chars "a.report.json",
            Except.ok ({ finalUrl := none, categories := some [] } : Report))] ++
          (chars "bad.report.json", Except.error (chars "oops")) :: []) orFail =
      (goFiles cfgNone (chars "/w") orFail
          [(chars "a.report.json",
            Except.ok ({ finalUrl := none, categories := some [] } : Report))] 0).1 ++
        [Event.setFailed (chars "Action failed with error: " ++ chars "oops")] :=
  ⟨by decide,
    parse_error_aborts_run.2 cfgNone (chars "/w") _ orFail
      [(chars "a.report.json", Except.ok ({ finalUrl := none, categories := some [] } : Report))]
      (chars "bad.report.json") (chars "oops") [] rfl (by decide) (by decide)⟩

theorem isPrefixOf_self : ∀ l : List Char, List.isPrefixOf l l = true := by
  intro l
  induction l with
  | nil => rfl
  | cons a l ih => simp [List.isPrefixOf, ih]

/-- `replace` rewrites the trailing occurrence of `pat` when no occurrence
starts anywhere earlier in the string. -/
theorem replaceFirst_at_suffix (pat repl : List Char) :
    ∀ xs, pat ≠ [] →
      (∀ i, i < xs.length →
        List.isPrefixOf pat (List.drop i (xs ++ pat)) = false) →
      replaceFirstL pat repl (xs ++ pat) = xs ++ repl := by
  intro xs
  induction xs with
  | nil =>
    intro hpat _
    rcases hp : pat with _ | ⟨p, t⟩
    · exact absurd hp hpat
    · subst hp
      simp [replaceFirstL, isPrefixOf_self, List.drop_length]
  | cons x xs ih =>
    intro hpat h
    have h0 := h 0 (by simp)
    simp only [List.drop_zero, List.cons_append] at h0
    have hnext : ∀ i, i < xs.length →
        List.isPrefixOf pat (List.drop i (xs ++ pat)) = false := by
      intro i hi
      have h1 := h (i + 1) (by simpa using Nat.succ_lt_succ hi)
      have e : List.drop (i + 1) ((x :: xs) ++ pat) = List.drop i (xs ++ pat) := rfl
      rw [e] at h1
      exact h1
    simp only [List.cons_append, replaceFirstL, List.append_eq, h0, Bool.false_eq_true, if_false]
    rw [ih hpat hnext]

theorem isWriteEvent_uploadToS3 (fp b a s r rawName ct : List Char) (o : UploadOutcome) :
    (uploadToS3 fp b a s r rawName ct o).filter isWriteEvent = [] := by
  cases o <;> rfl

theorem isWriteEvent_uploadToAzure (fp c a key : List Char) (o : UploadOutcome) :
    (uploadToAzure fp c a key o).filter isWriteEvent = [] := by
  cases o <;> rfl

theorem isWriteEvent_uploadStep (cfg : Config) (oracle : Nat → UploadOutcome)
    (svg url lab : List Char) (k : Nat) :
    (uploadStep cfg oracle svg url lab k).1.filter isWriteEvent = [] := by
  unfold uploadStep
  split_ifs
  · exact isWriteEvent_uploadToS3 svg cfg.s3BucketName cfg.s3AccessKeyId cfg.s3SecretAccessKey
      cfg.s3Region (cfg.s3PrefixInput ++ url ++ '.' :: lab ++ chars ".svg")
      (chars "image/svg+xml") (oracle k)
  · exact isWriteEvent_uploadToAzure svg cfg.azureContainerName cfg.azureStorageAccountName
      cfg.azureStorageAccountKey (oracle k)
  · rfl

theorem isWriteEvent_goRaw (cfg : Config) (cwd : List Char) (oracle : Nat → UploadOutcome)
    (file url : List Char) (k : Nat) :
    (goRaw cfg cwd oracle file url k).1.filter isWriteEvent = [] := by
  unfold goRaw
  split_ifs
  · exact isWriteEvent_uploadToS3 (pathJoinL (reportsPath cfg cwd) file) cfg.s3BucketName
      cfg.s3AccessKeyId cfg.s3SecretAccessKey cfg.s3Region
      (cfg.s3PrefixInput ++ url ++ chars ".report.json") (chars "application/json") (oracle k)
  · exact isWriteEvent_uploadToAzure (pathJoinL (reportsPath cfg cwd) file)
      cfg.azureContainerName cfg.azureStorageAccountName cfg.azureStorageAccountKey (oracle k)
  · rfl
  · rfl

/-- C9: an absent or empty `result-categories` input splits into exactly
one empty-string label, so a valid report still produces exactly one badge
file, with the empty label, at `<reportBase>..svg` (the name obtained by
replacing `report.json` with `.svg`). -/
theorem empty_categories_single_empty_label :
    (∀ cfg : Config, cfg.resultCategoriesInput = [] → resultCategories cfg = [[]]) ∧
    (∀ cfg cwd oracle file report cats,
      cfg.resultCategoriesInput = [] → report.categories = some cats →
      endsWithL file (chars ".report.json") = true →
      (run cfg cwd [(file, Except.ok report)] oracle).filter isWriteEvent =
        [Event.wroteSvg (pathJoinL (reportsPath cfg cwd)
            (replaceFirstL (chars "report.json") (chars ".svg") file))
          (badgen [] (statusOf (percOf cats [])) (colorOf (percOf cats [])))]) ∧
    (∀ base : List Char,
      (∀ i, i < base.length + 1 →
        List.isPrefixOf (chars "report.json")
          (List.drop i (base ++ chars ".report.json")) = false) →
      replaceFirstL (chars "report.json") (chars ".svg") (base ++ chars ".report.json") =
        base ++ chars "..svg") := by
  refine ⟨?_, ?_, ?_⟩
  · intro cfg h
    rw [resultCategories, h]
    rfl
  · intro cfg cwd oracle file report cats hinput hcats hend
    have hres : resultCategories cfg = [[]] := by rw [resultCategories, hinput]; rfl
    have hfil : [(file, (Except.ok report : Except (List Char) Report))].filter
        (fun f => endsWithL f.1 (chars ".report.json")) =
        [(file, (Except.ok report : Except (List Char) Report))] := by
      simp [hend]
    unfold run
    rw [hfil]
    simp only [List.isEmpty_cons, Bool.false_eq_true, if_false]
    simp only [goFiles, hcats, hres, goCats]
    simp [List.filter_append, List.filter_cons, isWriteEvent, isWriteEvent_uploadStep,
      isWriteEvent_goRaw]
  · intro base hocc
    have hch : chars ".report.json" = '.' :: chars "report.json" := rfl
    have hch2 : chars "..svg" = '.' :: chars ".svg" := rfl
    have hxs : ∀ i, i < (base ++ ['.']).length →
        List.isPrefixOf (chars "report.json")
          (List.drop i ((base ++ ['.']) ++ chars "report.json")) = false := by
      intro i hi
      have hlen : i < base.length + 1 := by simpa using hi
      have h1 := hocc i hlen
      simpa [List.append_assoc, hch] using h1
    have hx := replaceFirst_at_suffix (chars "report.json") (chars ".svg")
      (base ++ ['.']) (by decide) hxs
    rw [hch, hch2]
    simpa [List.append_assoc] using hx

theorem empty_categories_single_empty_label_witness :
    cfgS3raw.resultCategoriesInput = [] ∧
    (run cfgS3raw (chars "/w2")
        [(chars "a.report.json", Except.ok ({ finalUrl := none, categories := some [] } : Report))]
        orFail).filter isWriteEvent =
      [Event.wroteSvg (pathJoinL (reportsPath cfgS3raw (chars "/w2"))
          (replaceFirstL (chars "report.json") (chars ".svg") (chars "a.report.json")))
        (badgen [] (statusOf (percOf [] [])) (colorOf (percOf [] [])))] :=
  ⟨rfl, empty_categories_single_empty_label.2.1 cfgS3raw (chars "/w2") orFail
    (chars "a.report.json") ({ finalUrl := none, categories := some [] } : Report) [] rfl rfl
    (by decide)⟩

theorem mem_goCats (cfg : Config) (cwd : List Char) (oracle : Nat → UploadOutcome)
    (file url : List Char) (cats : List (List Char × ℚ)) :
    ∀ labels k label, label ∈ labels →
      Event.wroteSvg (pathJoinL (reportsPath cfg cwd)
          (replaceFirstL (chars "report.json") (label ++ chars ".svg") file))
        (badgen label (statusOf (percOf cats label)) (colorOf (percOf cats label)))
        ∈ (goCats cfg cwd oracle file url cats labels k).1 := by
  intro labels
  induction labels with
  | nil => intro k label h; simp at h
  | cons lab rest ih =>
    intro k label h
    simp only [goCats]
    rcases List.mem_cons.mp h with h | h
    · subst h
      exact List.mem_cons_self _ _
    · exact List.mem_cons_of_mem _ (List.mem_append_right _ (ih _ label h))

theorem goFiles_no_error (cfg : Config) (cwd : List Char) (oracle : Nat → UploadOutcome) :
    ∀ files k, (∀ f ∈ files, ∃ r, f.2 = Except.ok r) →
      (goFiles cfg cwd oracle files k).2.2 = none := by
  intro files
  induction files with
  | nil => intro k _; rfl
  | cons f rest ih =>
    rcases f with ⟨file, parsed⟩
    intro k hall
    rcases parsed with m | report
    · exact absurd (hall (file, Except.error m) (List.mem_cons_self _ _)) (by simp)
    · have hrest : ∀ f ∈ rest, ∃ r, f.2 = Except.ok r :=
        fun f hf => hall f (List.mem_cons_of_mem _ hf)
      rcases hcats : report.categories with _ | cats
      · simp only [goFiles, hcats]
        exact ih _ hrest
      · simp only [goFiles, hcats]
        exact ih _ hrest

theorem mem_goFiles (cfg : Config) (cwd : List Char) (oracle : Nat → UploadOutcome) :
    ∀ files k file report cats label,
      (file, Except.ok report) ∈ files →
      (∀ f ∈ files, ∃ r, f.2 = Except.ok r) →
      report.categories = some cats →
      label ∈ resultCategories cfg →
      Event.wroteSvg (pathJoinL (reportsPath cfg cwd)
          (replaceFirstL (chars "report.json") (label ++ chars ".svg") file))
        (badgen label (statusOf (percOf cats label)) (colorOf (percOf cats label)))
        ∈ (goFiles cfg cwd oracle files k).1 := by
  intro files
  induction files with
  | nil => intro k file report cats label h; simp at h
  | cons f rest ih =>
    rcases f with ⟨file2, parsed⟩
    intro k file report cats label hmem hall hcats hlabel
    have hrest : ∀ f ∈ rest, ∃ r, f.2 = Except.ok r :=
      fun f hf => hall f (List.mem_cons_of_mem _ hf)
    rcases List.mem_cons.mp hmem with heq | hmem2
    · injection heq with h1 h2
      subst h1
      subst h2
      simp only [goFiles, hcats]
      exact List.mem_append_left _ (List.mem_append_left _
        (mem_goCats cfg cwd oracle file (urlPathOf report.finalUrl) cats
          (resultCategories cfg) k label hlabel))
    · rcases parsed with m | report2
      · exact absurd (hall (file2, Except.error m) (List.mem_cons_self _ _)) (by simp)
      · rcases hc2 : report2.categories with _ | cats2
        · simp only [goFiles, hc2]
          exact List.mem_cons_of_mem _ (ih _ file report cats label hmem2 hrest hcats hlabel)
        · simp only [goFiles, hc2]
          exact List.mem_append_right _ (ih _ file report cats label hmem2 hrest hcats hlabel)

/-- C1 (amended): in a run in which every listed report file parses, every
report with a `categories` field gets, for every configured category
label, a badge written beside it whose name is the report file name with
its FIRST occurrence of `report.json` replaced by `<label>.svg` — which
equals `<reportBase>.<label>.svg` whenever `report.json` occurs in the
file name only as its trailing `.report.json` suffix — and an absent
category bakes a `NaN` status into the badge instead of raising. -/
theorem badge_per_category (cfg : Config) (cwd : List Char)
    (dir : List (List Char × Except (List Char) Report)) (oracle : Nat → UploadOutcome)
    (file : List Char) (report : Report) (cats : List (List Char × ℚ)) (label : List Char)
    (hmem : (file, Except.ok report) ∈ dir)
    (hall : ∀ f ∈ dir, ∃ r, f.2 = Except.ok r)
    (hend : endsWithL file (chars ".report.json") = true)
    (hcats : report.categories = some cats)
    (hlabel : label ∈ resultCategories cfg) :
    Event.wroteSvg (pathJoinL (reportsPath cfg cwd)
        (replaceFirstL (chars "report.json") (label ++ chars ".svg") file))
      (badgen label (statusOf (percOf cats label)) (colorOf (percOf cats label)))
      ∈ run cfg cwd dir oracle ∧
    (lookupScore cats label = none → statusOf (percOf cats label) = chars "NaN") ∧
    (∀ base : List Char,
      (∀ i, i < base.length + 1 →
        List.isPrefixOf (chars "report.json")
          (List.drop i (base ++ chars ".report.json")) = false) →
      replaceFirstL (chars "report.json") (label ++ chars ".svg")
          (base ++ chars ".report.json") =
        base ++ '.' :: (label ++ chars ".svg")) := by
  refine ⟨?_, ?_, ?_⟩
  · have hmemF : (file, Except.ok report) ∈
        dir.filter (fun f => endsWithL f.1 (chars ".report.json")) :=
      List.mem_filter.mpr ⟨hmem, hend⟩
    have hallF : ∀ f ∈ dir.filter (fun f => endsWithL f.1 (chars ".report.json")),
        ∃ r, f.2 = Except.ok r :=
      fun f hf => hall f (List.mem_of_mem_filter hf)
    have hne : (dir.filter (fun f => endsWithL f.1 (chars ".report.json"))).isEmpty = false := by
      rcases hF : dir.filter (fun f => endsWithL f.1 (chars ".report.json")) with _ | ⟨a, l⟩
      · rw [hF] at hmemF
        simp at hmemF
      · rw [hF]
        rfl
    have hok := goFiles_no_error cfg cwd oracle
      (dir.filter (fun f => endsWithL f.1 (chars ".report.json"))) 0 hallF
    have hinm := mem_goFiles cfg cwd oracle
      (dir.filter (fun f => endsWithL f.1 (chars ".report.json"))) 0 file report cats label
      hmemF hallF hcats hlabel
    unfold run
    rw [hne]
    simp only [Bool.false_eq_true, if_false]
    rcases hgo : goFiles cfg cwd oracle
        (dir.filter (fun f => endsWithL f.1 (chars ".report.json"))) 0 with ⟨evs, k2, err⟩
    rw [hgo] at hok hinm
    simp only at hok
    subst hok
    exact hinm
  · intro h
    simp [percOf, statusOf, h]
  · intro base hocc
    have hch : chars ".report.json" = '.' :: chars "report.json" := rfl
    have hxs : ∀ i, i < (base ++ ['.']).length →
        List.isPrefixOf (chars "report.json")
          (List.drop i ((base ++ ['.']) ++ chars "report.json")) = false := by
      intro i hi
      have hlen : i < base.length + 1 := by simpa using hi
      have h1 := hocc i hlen
      simpa [List.append_assoc, hch] using h1
    have hx := replaceFirst_at_suffix (chars "report.json") (label ++ chars ".svg")
      (base ++ ['.']) (by decide) hxs
    rw [hch]
    simpa [List.append_assoc] using hx

theorem badge_per_category_witness :
    ((chars "a.report.json",
        (Except.ok ({ finalUrl := none, categories := some [] } : Report) :
          Except (List Char) Report)) ∈ dirS3raw) ∧
    chars "performance" ∈ resultCategories cfgNone ∧
    (Event.wroteSvg (pathJoinL (reportsPath cfgNone (chars "/w"))
        (replaceFirstL (chars "report.json") (chars "performance" ++ chars ".svg")
          (chars "a.report.json")))
      (badgen (chars "performance") (statusOf (percOf [] (chars "performance")))
        (colorOf (percOf [] (chars "performance"))))
      ∈ run cfgNone (chars "/w") dirS3raw orFail ∧
    (lookupScore [] (chars "performance") = none →
      statusOf (percOf [] (chars "performance")) = chars "NaN") ∧
    (∀ base : List Char,
      (∀ i, i < base.length + 1 →
        List.isPrefixOf (chars "report.json")
          (List.drop i (base ++ chars ".report.json")) = false) →
      replaceFirstL (chars "report.json") (chars "performance" ++ chars ".svg")
          (base ++ chars ".report.json") =
        base ++ '.' :: (chars "performance" ++ chars ".svg"))) :=
  ⟨by simp [dirS3raw], by decide,
    badge_per_category cfgNone (chars "/w") dirS3raw orFail
      (chars "a.report.json") ({ finalUrl := none, categories := some [] } : Report) []
      (chars "performance") (by simp [dirS3raw])
      (by
        intro f hf
        simp only [dirS3raw, List.mem_singleton] at hf
        subst hf
        exact ⟨{ finalUrl := none, categories := some [] }, rfl⟩)
      (by decide) rfl (by decide)⟩

/-- C1 (counterexample to the claim as stated): for the report file
`report.jsonx.report.json` — which ends in `.report.json` and has a
`categories` field — every badge write of the run lands at
`/w/performance.svgx.report.json` (the first occurrence of `report.json`
is replaced), not at `<reportBase>.<category>.svg`, which would be
`/w/report.jsonx.performance.svg`. -/
theorem badge_name_counterexample :
    (run cfgNone (chars "/w") dirTwice orFail).all
      (fun e => match e with
        | Event.wroteSvg p _ => p == chars "/w/performance.svgx.report.json"
        | _ => true) = true ∧
    (Event.wroteSvg (chars "/w/performance.svgx.report.json")
        (badgen (chars "performance") (chars "NaN") (chars "red")) ∈
      run cfgNone (chars "/w") dirTwice orFail) ∧
    chars "/w/performance.svgx.report.json" ≠ chars "/w/report.jsonx.performance.svg" :=
  ⟨by decide, by decide, by decide⟩

/-- C9 (counterexample to the claim as stated): with an empty
`result-categories` input and the report file `report.jsonx.report.json`,
the single empty-label badge write of the run lands at
`/w/.svgx.report.json` (the first occurrence of `report.json` is replaced
by `.svg`), not at `<reportBase>..svg`, which would be
`/w/report.jsonx..svg`. -/
theorem empty_label_badge_name_counterexample :
    (run cfgEmptyCats (chars "/w") dirTwice orFail).all
      (fun e => match e with
        | Event.wroteSvg p _ => p == chars "/w/.svgx.report.json"
        | _ => true) = true ∧
    (Event.wroteSvg (chars "/w/.svgx.report.json")
        (badgen [] (chars "NaN") (chars "red")) ∈
      run cfgEmptyCats (chars "/w") dirTwice orFail) ∧
    chars "/w/.svgx.report.json" ≠ chars "/w/report.jsonx..svg" :=
  ⟨by decide, by decide, by decide⟩
